import Mathlib

/-!
# Shallow embedding of the LatestVersionManager core (src/src/lvm)

Strings are modelled as `List Char`.  Each definition carries a doc comment
naming the Python function it embeds.  Filesystem state is modelled
explicitly (record files, directory trees, promotion worlds); machine-level
concerns (bytes of media files) are modelled only where a claim needs them
(the SMPTE timecode word).
-/

namespace LVM

/-! ## Character classes and small string utilities -/

/-- The divider set `DIVIDERS = "_.-"` of `task_tokens.py`. -/
def isDiv (c : Char) : Bool := c = '_' || c = '.' || c = '-'

/-- The frame-pattern divider class `[._]` used by `FRAME_EXT_RE` / `FRAME_RE`. -/
def isFrameDiv (c : Char) : Bool := c = '_' || c = '.'

/-- Python regex `\w` restricted to ASCII: letters, digits and underscore. -/
def isWordC (c : Char) : Bool := c.isAlpha || c.isDigit || c = '_'

/-- Decimal digits of a natural number, as characters (Python `str(n)`). -/
def natChars (n : Nat) : List Char := Nat.toDigits 10 n

/-- Python `int(s)` on a digit string (`int(match.group(1))`). -/
def digitsToNat (l : List Char) : Nat :=
  l.foldl (fun a c => a * 10 + (c.toNat - 48)) 0

/-- Python format `f"{n:02d}"`. -/
def pad2 (n : Nat) : List Char :=
  (if n < 10 then ['0'] else []) ++ natChars n

/-- Python format `f"{n:03d}"`. -/
def pad3 (n : Nat) : List Char :=
  (if n < 10 then ['0', '0'] else if n < 100 then ['0'] else []) ++ natChars n

/-- Stable insertion used by `insSortBy`: an element is placed after every
element it does not strictly precede, matching Python's stable `sort`. -/
def insBy (le : α → α → Bool) : List α → α → List α
  | [], m => [m]
  | x :: xs, m => if le x m then x :: insBy le xs m else m :: x :: xs

/-- Stable sort (Python `list.sort` / `sorted`) with a boolean `≤` test. -/
def insSortBy (le : α → α → Bool) (l : List α) : List α :=
  l.foldl (insBy le) []

theorem mem_insBy (le : α → α → Bool) (l : List α) (m x : α) :
    x ∈ insBy le l m ↔ x = m ∨ x ∈ l := by
  induction l with
  | nil => simp [insBy]
  | cons a as ih =>
      simp only [insBy]
      split <;> simp [ih] <;> tauto

theorem mem_insSortBy (le : α → α → Bool) (l : List α) (x : α) :
    x ∈ insSortBy le l ↔ x ∈ l := by
  suffices h : ∀ acc, x ∈ l.foldl (insBy le) acc ↔ x ∈ acc ∨ x ∈ l by
    simpa [insSortBy] using h []
  induction l with
  | nil => simp
  | cons a as ih =>
      intro acc
      simp only [List.foldl_cons, ih, mem_insBy]
      simp; tauto

theorem perm_insBy (le : α → α → Bool) (l : List α) (m : α) :
    List.Perm (insBy le l m) (m :: l) := by
  induction l with
  | nil => simp [insBy]
  | cons a as ih =>
      simp only [insBy]
      split
      · exact (ih.cons a).trans (List.Perm.swap m a as)
      · exact List.Perm.refl _

theorem perm_insSortBy (le : α → α → Bool) (l : List α) :
    List.Perm (insSortBy le l) l := by
  suffices h : ∀ acc : List α, List.Perm (l.foldl (insBy le) acc) (acc ++ l) by
    simpa [insSortBy] using h []
  induction l with
  | nil => intro acc; simp
  | cons a as ih =>
      intro acc
      have h1 := ih (insBy le acc a)
      have h2 : List.Perm (insBy le acc a ++ as) ((a :: acc) ++ as) :=
        List.Perm.append_right as (perm_insBy le acc a)
      have h3 : List.Perm ((a :: acc) ++ as) (acc ++ a :: as) :=
        List.perm_middle.symm
      exact (h1.trans h2).trans h3

theorem sorted_insBy (l : List Nat) (m : Nat)
    (h : l.Sorted (· ≤ ·)) :
    (insBy (fun a b => decide (a ≤ b)) l m).Sorted (· ≤ ·) := by
  induction l with
  | nil => simp [insBy]
  | cons a as ih =>
      simp only [insBy]
      split
      · rename_i hle
        rw [List.sorted_cons]
        refine ⟨?_, ih h.of_cons⟩
        intro b hb
        rcases (mem_insBy _ as m b).mp hb with hb | hb
        · subst hb
          exact of_decide_eq_true hle
        · exact (List.sorted_cons.mp h).1 b hb
      · rename_i hle
        rw [List.sorted_cons]
        refine ⟨?_, h⟩
        intro b hb
        have hma : m ≤ a := by
          have := of_decide_eq_false (Bool.not_eq_true _ ▸ hle)
          omega
        rcases List.mem_cons.mp hb with hb | hb
        · omega
        · exact le_trans hma ((List.sorted_cons.mp h).1 b hb)

theorem sorted_insSortBy (l : List Nat) :
    (insSortBy (fun a b => decide (a ≤ b)) l).Sorted (· ≤ ·) := by
  suffices h : ∀ acc : List Nat, acc.Sorted (· ≤ ·) →
      (l.foldl (insBy (fun a b => decide (a ≤ b))) acc).Sorted (· ≤ ·) by
    exact h [] (by simp)
  induction l with
  | nil => intro acc h; exact h
  | cons a as ih =>
      intro acc hacc
      exact ih (insBy _ acc a) (sorted_insBy acc a hacc)

/-- In a sorted list, every element is bounded below by the head. -/
theorem sorted_headD_le (l : List Nat) (h : l.Sorted (· ≤ ·)) :
    ∀ x ∈ l, l.headD 0 ≤ x := by
  cases l with
  | nil => simp
  | cons c t =>
      intro x hx
      rcases List.mem_cons.mp hx with hx | hx
      · simp [hx]
      · exact (List.sorted_cons.mp h).1 x hx

/-- In a sorted list, every element is bounded above by the last element. -/
theorem sorted_le_getLastD (l : List Nat) (h : l.Sorted (· ≤ ·)) :
    ∀ x ∈ l, x ≤ l.getLastD 0 := by
  induction l with
  | nil => simp
  | cons c t ih =>
      intro x hx
      cases t with
      | nil =>
          simp only [List.mem_singleton] at hx
          simp [hx, List.getLastD]
      | cons b t' =>
          have hlast : (c :: b :: t').getLastD 0 = (b :: t').getLastD 0 := by
            simp [List.getLastD_cons]
          rw [hlast]
          rcases List.mem_cons.mp hx with hx | hx
          · subst hx
            have hcb : x ≤ b := (List.sorted_cons.mp h).1 b (by simp)
            exact le_trans hcb (ih h.of_cons b (by simp))
          · exact ih h.of_cons x hx

theorem headD_mem (l : List Nat) (h : l ≠ []) : l.headD 0 ∈ l := by
  cases l with
  | nil => exact absurd rfl h
  | cons c t => simp

theorem getLastD_mem (l : List Nat) (h : l ≠ []) : l.getLastD 0 ∈ l := by
  induction l with
  | nil => exact absurd rfl h
  | cons c t ih =>
      cases t with
      | nil => simp [List.getLastD]
      | cons b t' =>
          have : (c :: b :: t').getLastD 0 = (b :: t').getLastD 0 := by
            simp [List.getLastD_cons]
          rw [this]
          exact List.mem_cons_of_mem c (ih (by simp))

/-- Lexicographic `<` on strings by code point (Python `str` ordering). -/
def lexLt : List Char → List Char → Bool
  | [], [] => false
  | [], _ :: _ => true
  | _ :: _, [] => false
  | a :: as, b :: bs => if a = b then lexLt as bs else decide (a < b)

/-- Lexicographic `≤` used when sorting names/paths. -/
def lexLe (a b : List Char) : Bool := !lexLt b a

/-- Python `a in b` on strings: substring test. -/
def containsSub (hay needle : List Char) : Bool :=
  needle.isPrefixOf hay ||
    match hay with
    | [] => false
    | _ :: t => containsSub t needle

/-- Python `s.lower()` (ASCII). -/
def lowerStr (s : List Char) : List Char := s.map Char.toLower

/-- Fuel-driven worker for `replaceAllStr`; each step consumes at least one
subject character, so a fuel of `s.length` is always sufficient for a
nonempty pattern. -/
def replaceAllStrAux (pat rep : List Char) : Nat → List Char → List Char
  | 0, s => s
  | _ + 1, [] => []
  | fuel + 1, c :: rest =>
      if pat.isPrefixOf (c :: rest) then
        rep ++ replaceAllStrAux pat rep fuel ((c :: rest).drop pat.length)
      else
        c :: replaceAllStrAux pat rep fuel rest

/-- Python `str.replace(pat, rep)`: all non-overlapping occurrences,
left to right.  An empty pattern is never used by the embedded code. -/
def replaceAllStr (s pat rep : List Char) : List Char :=
  if pat = [] then s else replaceAllStrAux pat rep s.length s

theorem length_dropWhile_le' (p : α → Bool) (l : List α) :
    (l.dropWhile p).length ≤ l.length := by
  induction l with
  | nil => simp
  | cons a as ih =>
      by_cases h : p a = true
      · simp only [List.dropWhile, h]
        exact Nat.le_succ_of_le ih
      · simp only [List.dropWhile, Bool.not_eq_true] at *
        simp [h]

/-! ## task_tokens.py — NameTokenizer -/

/-- Leftmost match of `VERSION_RE = [._\-]v(\d+)` (IGNORECASE), following
`re.search`: the scan tries each start position left to right; a successful
match needs a divider, a `v`/`V`, and a maximal nonempty digit run (greedy
`\d+`).  Returns `(start, stop, digits)` of the match and its group 1. -/
def versionMatchAux : List Char → Nat → Option (Nat × Nat × List Char)
  | [], _ => none
  | c :: rest, i =>
      if isDiv c then
        match rest with
        | v :: rest2 =>
            if v.toLower = 'v' then
              let ds := rest2.takeWhile Char.isDigit
              if ds ≠ [] then some (i, i + 2 + ds.length, ds)
              else versionMatchAux rest (i + 1)
            else versionMatchAux rest (i + 1)
        | [] => none
      else versionMatchAux rest (i + 1)

/-- Embeds `VERSION_RE.search(s)` (shared by task_tokens.py and discovery.py). -/
def versionSearch (s : List Char) : Option (Nat × Nat × List Char) :=
  versionMatchAux s 0

/-- Leftmost match of `FRAME_EXT_RE = [._](\d{3,8})\.\w+$` following
`re.search`: a frame divider, a digit run (which must be 3–8 long and, being
maximal, is the only candidate the `\d{3,8}` backtracking can accept before
the literal dot), a dot, then one or more word characters running to the end
of the string.  Returns `(start, digits)`. -/
def frameExtAux : List Char → Nat → Option (Nat × List Char)
  | [], _ => none
  | c :: rest, i =>
      if isFrameDiv c then
        let ds := rest.takeWhile Char.isDigit
        let r := ds.length
        if 3 ≤ r ∧ r ≤ 8 then
          match rest.drop r with
          | '.' :: tail =>
              if tail ≠ [] ∧ tail.all isWordC then some (i, ds)
              else frameExtAux rest (i + 1)
          | _ => frameExtAux rest (i + 1)
        else frameExtAux rest (i + 1)
      else frameExtAux rest (i + 1)

/-- Embeds `FRAME_EXT_RE.search(s)` (task_tokens.py; identical to `FRAME_RE` of
discovery.py and `FRAME_PATTERNS[0]` of scanner.py). -/
def frameExtSearch (s : List Char) : Option (Nat × List Char) :=
  frameExtAux s 0

/-- Index of the last `'.'` in a name (Python `name.rfind('.')`). -/
def lastDotIdx : List Char → Option Nat
  | [] => none
  | c :: rest =>
      match lastDotIdx rest with
      | some j => some (j + 1)
      | none => if c = '.' then some 0 else none

/-- Embeds `pathlib.PurePath.stem`: the name minus its suffix, where a suffix
requires the last dot to be neither the first nor the last character. -/
def stemOf (s : List Char) : List Char :=
  match lastDotIdx s with
  | none => s
  | some i => if 0 < i ∧ i < s.length - 1 then s.take i else s

/-- Embeds `pathlib.PurePath.suffix` (same dot rule as `stemOf`). -/
def suffixOf (s : List Char) : List Char :=
  match lastDotIdx s with
  | none => []
  | some i => if 0 < i ∧ i < s.length - 1 then s.drop i else []

/-- Embeds `pathlib.PurePath.name`: last nonempty `/`-separated segment. -/
def pathName (s : List Char) : List Char :=
  (((s.splitOn '/').filter (· ≠ [])).getLast?).getD []

/-- Worker for `collapseRunsFirst`: drop a divider whose predecessor in the
original string was itself a divider. -/
def collapseRunsFirstAux : Bool → List Char → List Char
  | _, [] => []
  | prevDiv, c :: rest =>
      if isDiv c then
        if prevDiv then collapseRunsFirstAux true rest
        else c :: collapseRunsFirstAux true rest
      else c :: collapseRunsFirstAux false rest

/-- The cleanup `re.sub(r"[_.\-]{2,}", lambda m: m.group()[0], s)` of
task_tokens.py: each maximal run of two or more dividers is replaced by its
first character, i.e. a divider directly following another divider is
dropped. -/
def collapseRunsFirst (s : List Char) : List Char :=
  collapseRunsFirstAux false s

/-- The promoter's cleanup `_DOUBLE_DIVIDER_RE.sub(r"\1", s)` where
`_DOUBLE_DIVIDER_RE = ([_.\-]){2,}`: the backreference is the *last*
repetition, so each maximal run of two or more dividers is replaced by its
last character, i.e. a divider directly followed by another divider is
dropped. -/
def collapseRunsLast : List Char → List Char
  | [] => []
  | [c] => [c]
  | c :: d :: rest =>
      if isDiv c && isDiv d then collapseRunsLast (d :: rest)
      else c :: collapseRunsLast (d :: rest)

/-- Python `s.strip(DIVIDERS)`. -/
def stripDivEnds (s : List Char) : List Char :=
  ((s.dropWhile isDiv).reverse.dropWhile isDiv).reverse

/-- Embeds `task_tokens.strip_version`: remove the first `VERSION_RE` match
(`count=1`), collapse divider runs, strip dividers from both ends. -/
def strip_version (s : List Char) : List Char :=
  let s1 :=
    match versionSearch s with
    | some (i, e, _) => s.take i ++ s.drop e
    | none => s
  stripDivEnds (collapseRunsFirst s1)

/-- Embeds `task_tokens.strip_frame_and_ext`: cut at a frame-and-extension match,
else fall back to the path stem. -/
def strip_frame_and_ext (s : List Char) : List Char :=
  match frameExtSearch s with
  | some (i, _) => s.take i
  | none => stemOf s

/-- Body of the compiled task pattern of `compile_task_pattern`: each `%`
matches exactly one non-divider character, every other (escaped) character
matches itself case-insensitively (`re.IGNORECASE`); each token character
consumes exactly one subject character. -/
def bodyMatch : List Char → List Char → Bool
  | [], _ => true
  | _ :: _, [] => false
  | t :: ts, c :: cs =>
      (if t = '%' then !(isDiv c) else t.toLower = c.toLower) && bodyMatch ts cs

/-- Whether the compiled pattern for `tok` matches `name` at `pos`: the
bounded-by-divider-or-edge condition `(?:(?<=[_.\-])|(?:^)) … (?=[_.\-]|$)`
around the body. -/
def matchesAt (tok name : List Char) (pos : Nat) : Bool :=
  (pos == 0 || isDiv (name.getD (pos - 1) ' ')) &&
  bodyMatch tok (name.drop pos) &&
  (pos + tok.length == name.length || isDiv (name.getD (pos + tok.length) ' '))

/-- Fuel-driven worker for `finditer`; the scan position strictly increases
each step, so `name.length + 2` fuel always suffices from position 0. -/
def finditerAux (tok name : List Char) : Nat → Nat → List (Nat × Nat)
  | 0, _ => []
  | fuel + 1, pos =>
      if name.length < pos then []
      else if matchesAt tok name pos then
        (pos, pos + tok.length) ::
          finditerAux tok name fuel (max (pos + tok.length) (pos + 1))
      else finditerAux tok name fuel (pos + 1)

/-- Embeds `pattern.finditer(name)` for a compiled task pattern: non-overlapping
matches scanning left to right; after a zero-width match the scan advances
by one position. -/
def finditer (tok name : List Char) : List (Nat × Nat) :=
  finditerAux tok name (name.length + 2) 0

/-- One entry of the list returned by `find_task_tokens`: the dict
`{token, match, start, end}`. -/
structure TMatch where
  token : List Char
  mtext : List Char
  start : Nat
  stop : Nat
deriving DecidableEq, Repr

/-- Embeds `task_tokens.find_task_tokens`: all matches of every token pattern, in
token order, then stably sorted by start position. -/
def find_task_tokens (name : List Char) (toks : List (List Char)) : List TMatch :=
  insSortBy (fun a b => decide (a.start ≤ b.start))
    (toks.foldr
      (fun t acc =>
        ((finditer t name).map
          (fun p => ⟨t, (name.drop p.1).take (p.2 - p.1), p.1, p.2⟩)) ++ acc)
      [])

/-- One removal step of the `for m in reversed(matches)` loop of
`strip_task_tokens`: clamp the match span to the current string, extend it
over the preceding divider (else over the following one), and splice. -/
def removeMatch (res : List Char) (m : TMatch) : List Char :=
  let s := min m.start res.length
  let e := min m.stop res.length
  let p : Nat × Nat :=
    if 0 < s ∧ s ≤ res.length ∧ isDiv (res.getD (s - 1) ' ') then (s - 1, e)
    else if e < res.length ∧ isDiv (res.getD e ' ') then (s, e + 1)
    else (s, e)
  res.take p.1 ++ res.drop p.2

/-- Embeds `task_tokens.strip_task_tokens`. -/
def strip_task_tokens (name : List Char) (toks : List (List Char)) : List Char :=
  if toks = [] then name
  else
    let ms := find_task_tokens name toks
    if ms = [] then name
    else stripDivEnds (collapseRunsFirst (ms.reverse.foldl removeMatch name))

/-- The token dict returned by `derive_source_tokens`. -/
structure SourceTokens where
  source_filename : List Char
  source_fullname : List Char
  source_name : List Char
  source_basename : List Char
deriving DecidableEq, Repr

/-- Embeds `task_tokens.derive_source_tokens`. -/
def derive_source_tokens (input : List Char) (toks : List (List Char)) :
    SourceTokens :=
  let filename := pathName input
  let fullname := strip_frame_and_ext filename
  let sname := strip_version fullname
  let b0 := strip_task_tokens sname toks
  ⟨filename, fullname, sname, if b0 = [] then sname else b0⟩

/-! ## Data model (models.py) and a directory-tree model for scans -/

/-- Embeds `models.VersionInfo`. -/
structure VersionInfo where
  version_string : List Char
  version_number : Nat
  source_path : List Char
  frame_range : Option (List Char) := none
  frame_count : Nat := 0
  file_count : Nat := 0
  total_size_bytes : Nat := 0
  start_timecode : Option (List Char) := none
deriving DecidableEq, Repr

/-- A regular file as seen by a directory scan: its name and size. -/
structure MFile where
  name : List Char
  size : Nat
deriving DecidableEq, Repr

/-- One directory entry: a subdirectory with its entries, or a file. -/
inductive FsEntry where
  | dir (name : List Char) (entries : List FsEntry)
  | file (name : List Char) (size : Nat)

/-- Name of a directory entry (`entry.name`). -/
def FsEntry.name : FsEntry → List Char
  | .dir n _ => n
  | .file n _ => n

/-- Embeds `str(parent / name)`. -/
def childPath (parent name : List Char) : List Char := parent ++ '/' :: name

/-! ## scanner.py — VersionScanner -/

/-- Embeds `VersionScanner._collect_files`: regular files whose `name[rfind('.') :]`
lowercased is among the configured extensions (themselves lowercased),
sorted. -/
def collect_files (exts : List (List Char)) (entries : List FsEntry) :
    List MFile :=
  insSortBy (fun a b => lexLe a.name b.name)
    (entries.filterMap fun e =>
      match e with
      | .file n sz =>
          match lastDotIdx n with
          | some i =>
              if lowerStr (n.drop i) ∈ exts.map lowerStr then some ⟨n, sz⟩
              else none
          | none => none
      | .dir _ _ => none)

/-- The `frames` list of `_detect_frame_range`: the integer frame number of
every file whose name matches the frame pattern, in file order. -/
def framesOf (files : List (List Char)) : List Nat :=
  files.filterMap fun f => (frameExtSearch f).map fun p => digitsToNat p.2

/-- Embeds `VersionScanner._detect_frame_range`. -/
def detect_frame_range (files : List (List Char)) : Option (List Char) × Nat :=
  match files with
  | [] => (none, 0)
  | [_] => (none, 1)
  | _ =>
      let frames := framesOf files
      if frames = [] then (none, files.length)
      else
        let sorted := insSortBy (fun a b => decide (a ≤ b)) frames
        let first := sorted.headD 0
        let last := sorted.getLastD 0
        let expected := last - first + 1
        let actual := frames.length
        let base := natChars first ++ '-' :: natChars last
        let rstr :=
          if actual ≠ expected then
            base ++ " (".toList ++ natChars actual ++ '/' :: natChars expected
              ++ " frames, gaps detected)".toList
          else base
        (some rstr, actual)

/-- Embeds `VersionScanner._extract_version`, with the compiled version regex
abstracted as its group-1 search function (the pattern is user
configuration; `search name` returns the digit group of the first match,
if any).  The version string is always `f"v{num:03d}"`. -/
def extract_version (search : List Char → Option (List Char))
    (name : List Char) : Option (List Char × Nat) :=
  (search name).map fun g =>
    let n := digitsToNat g
    ('v' :: pad3 n, n)

/-- Embeds `VersionScanner._scan_version_folder`. -/
def scan_version_folder (search : List Char → Option (List Char))
    (exts : List (List Char)) (path name : List Char)
    (entries : List FsEntry) : Option VersionInfo :=
  match extract_version search name with
  | none => none
  | some (vs, vn) =>
      let files := collect_files exts entries
      if files = [] then none
      else
        let fr := detect_frame_range (files.map MFile.name)
        some { version_string := vs, version_number := vn, source_path := path,
               frame_range := fr.1, frame_count := fr.2,
               file_count := files.length,
               total_size_bytes := (files.map MFile.size).sum,
               start_timecode := none }

/-- Embeds `VersionScanner._scan_version_file` (`filepath.suffix.lower()` is tested
against the configured extension list as given, without lowercasing it). -/
def scan_version_file (search : List Char → Option (List Char))
    (exts : List (List Char)) (path name : List Char) (size : Nat) :
    Option VersionInfo :=
  if lowerStr (suffixOf name) ∈ exts then
    match extract_version search name with
    | none => none
    | some (vs, vn) =>
        some { version_string := vs, version_number := vn, source_path := path,
               frame_range := none, frame_count := 1, file_count := 1,
               total_size_bytes := size, start_timecode := none }
  else none

/-- Embeds `VersionScanner.scan` on an existing source directory: entries sorted by
name, folders and bare files scanned, results sorted by version number. -/
def scan (search : List Char → Option (List Char)) (exts : List (List Char))
    (sourceDir : List Char) (entries : List FsEntry) : List VersionInfo :=
  let sorted := insSortBy (fun a b => lexLe a.name b.name) entries
  let versions := sorted.filterMap fun e =>
    match e with
    | .dir n es => scan_version_folder search exts (childPath sourceDir n) n es
    | .file n sz => scan_version_file search exts (childPath sourceDir n) n sz
  insSortBy (fun a b => decide (a.version_number ≤ b.version_number)) versions

/-! ## discovery.py — DiscoveryEngine -/

/-- Embeds `models.DiscoveryResult`. -/
structure DiscoveryResult where
  path : List Char
  name : List Char
  versions_found : List VersionInfo := []
  suggested_pattern : List Char := []
  suggested_extensions : List (List Char) := []
  sample_filename : List Char := []
deriving DecidableEq, Repr

/-- Embeds `discovery._collect_media_files`: like `collect_files` but the extension
set is used exactly as supplied (`set(extensions)`, not lowercased). -/
def collect_media_files (exts : List (List Char)) (entries : List FsEntry) :
    List MFile :=
  insSortBy (fun a b => lexLe a.name b.name)
    (entries.filterMap fun e =>
      match e with
      | .file n sz =>
          match lastDotIdx n with
          | some i => if lowerStr (n.drop i) ∈ exts then some ⟨n, sz⟩ else none
          | none => none
      | .dir _ _ => none)

/-- Embeds `discovery._detect_frame_range` (verbatim copy of the scanner's). -/
def discovery_detect_frame_range (files : List (List Char)) :
    Option (List Char) × Nat :=
  match files with
  | [] => (none, 0)
  | [_] => (none, 1)
  | _ =>
      let frames := framesOf files
      if frames = [] then (none, files.length)
      else
        let sorted := insSortBy (fun a b => decide (a ≤ b)) frames
        let first := sorted.headD 0
        let last := sorted.getLastD 0
        let expected := last - first + 1
        let actual := frames.length
        let base := natChars first ++ '-' :: natChars last
        let rstr :=
          if actual ≠ expected then
            base ++ " (".toList ++ natChars actual ++ '/' :: natChars expected
              ++ " frames, gaps detected)".toList
          else base
        (some rstr, actual)

/-- Embeds `discovery._scan_version_dir` (note: builds a `VersionInfo` even when
the directory holds no matching media files). -/
def scan_version_dir (path : List Char) (entries : List FsEntry)
    (verNum : Nat) (exts : List (List Char)) : VersionInfo :=
  let files := collect_media_files exts entries
  let fr := discovery_detect_frame_range (files.map MFile.name)
  { version_string := 'v' :: pad3 verNum, version_number := verNum,
    source_path := path, frame_range := fr.1, frame_count := fr.2,
    file_count := files.length,
    total_size_bytes := (files.map MFile.size).sum, start_timecode := none }

/-- Embeds `discovery._suggest_pattern`: the two characters at the match start
(divider and `v`) followed by the literal `{version}`. -/
def suggest_pattern (name : List Char) (matchStart : Nat) : List Char :=
  (name.drop matchStart).take 2 ++ "\x7bversion\x7d".toList

/-- Deduplicate and sort lexicographically (`sorted(set(...))`). -/
def sortedDedup (l : List (List Char)) : List (List Char) :=
  insSortBy lexLe l.dedup

/-- The `seen_versions` fold of the versioned-single-files branch of
`_walk_for_versions`: a repeated version number increments the `file_count`
and size of the `VersionInfo` already in the list. -/
def foldVersionFiles (path : List Char) :
    List (List Char × Nat × Nat) → List VersionInfo → List VersionInfo
  | [], acc => acc
  | (n, sz, vn) :: rest, acc =>
      if acc.any (fun vi => vi.version_number = vn) then
        foldVersionFiles path rest
          (acc.map fun vi =>
            if vi.version_number = vn then
              { vi with file_count := vi.file_count + 1,
                        total_size_bytes := vi.total_size_bytes + sz }
            else vi)
      else
        foldVersionFiles path rest
          (acc ++ [{ version_string := 'v' :: pad3 vn, version_number := vn,
                     source_path := childPath path n, file_count := 1,
                     total_size_bytes := sz, start_timecode := none }])

/-- The versioned-subdirectories branch of `_walk_for_versions`: when the
current directory has version-named subdirectories, one `DiscoveryResult`
for it (per-subdirectory scans sorted by version number, collected
extensions sorted, pattern and sample from the first subdirectory). -/
def walkDirResult (exts : List (List Char)) (path name : List Char)
    (versioned_dirs : List (List Char × List FsEntry × (Nat × Nat × List Char))) :
    List DiscoveryResult :=
  if !versioned_dirs.isEmpty then
    let versions := insSortBy
      (fun a b => decide (a.version_number ≤ b.version_number))
      (versioned_dirs.map fun v =>
        scan_version_dir (childPath path v.1) v.2.1 (digitsToNat v.2.2.2.2)
          exts)
    let found_exts := sortedDedup
      ((versioned_dirs.map fun v =>
        (collect_media_files exts v.2.1).map fun f =>
          lowerStr (suffixOf f.name)).foldr (· ++ ·) [])
    let suggested :=
      match versioned_dirs with
      | v :: _ => suggest_pattern v.1 v.2.2.1
      | [] => []
    let sample :=
      match versioned_dirs with
      | v :: _ =>
          match collect_media_files exts v.2.1 with
          | f :: _ => f.name
          | [] => []
      | [] => []
    [{ path := path, name := name, versions_found := versions,
       suggested_pattern := suggested, suggested_extensions := found_exts,
       sample_filename := sample }]
  else []

/-- The versioned-single-files branch of `_walk_for_versions`, taken only
when there are versioned files and no versioned subdirectories. -/
def walkFileResult (exts : List (List Char)) (path name : List Char)
    (versioned_files : List (List Char × Nat × Nat)) (dirsEmpty : Bool) :
    List DiscoveryResult :=
  if !versioned_files.isEmpty && dirsEmpty then
    let versions := insSortBy
      (fun a b => decide (a.version_number ≤ b.version_number))
      (foldVersionFiles path versioned_files [])
    let found_exts := sortedDedup
      (versioned_files.map fun v => lowerStr (suffixOf v.1))
    let suggested :=
      match versioned_files with
      | v :: _ =>
          match versionSearch (stemOf v.1) with
          | some m => suggest_pattern (stemOf v.1) m.1
          | none => []
      | [] => []
    let sample :=
      match versioned_files with
      | v :: _ => v.1
      | [] => []
    [{ path := path, name := name, versions_found := versions,
       suggested_pattern := suggested, suggested_extensions := found_exts,
       sample_filename := sample }]
  else []

/-- The version-named directories at one level (`VERSION_RE` on the entry
name), the non-versioned subdirectories to recurse into, and the versioned
single files (`VERSION_RE` on the stem, extension filtered). -/
def versionedDirsOf (entries : List FsEntry) :
    List (List Char × List FsEntry × (Nat × Nat × List Char)) :=
  entries.filterMap fun e =>
    match e with
    | .dir n es => (versionSearch n).map fun m => (n, es, m)
    | .file _ _ => none

def subdirsOf (entries : List FsEntry) : List (List Char × List FsEntry) :=
  entries.filterMap fun e =>
    match e with
    | .dir n es => if (versionSearch n).isSome then none else some (n, es)
    | .file _ _ => none

def versionedFilesOf (exts : List (List Char)) (entries : List FsEntry) :
    List (List Char × Nat × Nat) :=
  entries.filterMap fun e =>
    match e with
    | .file n sz =>
        if lowerStr (suffixOf n) ∈ exts then
          (versionSearch (stemOf n)).map fun m => (n, sz, digitsToNat m.2.2)
        else none
    | .dir _ _ => none

/-- Entries of a level as the walk visits them: sorted by name, dot-prefixed
entries skipped. -/
def keptEntries (entries : List FsEntry) : List FsEntry :=
  (insSortBy (fun a b => lexLe a.name b.name) entries).filter fun e =>
    !(e.name.head? = some '.')

/-- Fuel-driven worker for `_walk_for_versions`: the recursion depth of the
Python walk is bounded by `max_depth`, and the wrapper passes exactly the
`maxDepth + 1 - depth` levels the guard `depth > max_depth` permits.  The
thread-pool scan of sibling version directories is order-independent up to
the final sort by version number, so it is modelled sequentially. -/
def walkAux (exts : List (List Char)) :
    Nat → Nat → Nat → List Char → List Char → List FsEntry →
    List DiscoveryResult
  | 0, _, _, _, _, _ => []
  | fuel + 1, depth, maxDepth, path, name, entries =>
  if maxDepth < depth then []
  else
    let kept := keptEntries entries
    walkDirResult exts path name (versionedDirsOf kept) ++
      walkFileResult exts path name (versionedFilesOf exts kept)
        (versionedDirsOf kept).isEmpty ++
      ((subdirsOf kept).map fun sd =>
        walkAux exts fuel (depth + 1) maxDepth (childPath path sd.1) sd.1
          sd.2).flatten

/-- Embeds `discovery._walk_for_versions`.  The thread-pool scan of sibling version
directories is order-independent up to the final sort by version number, so
it is modelled as a sequential map followed by that sort. -/
def walk_for_versions (depth maxDepth : Nat) (exts : List (List Char))
    (path name : List Char) (entries : List FsEntry) : List DiscoveryResult :=
  walkAux exts (maxDepth + 1 - depth) depth maxDepth path name entries

/-- Embeds `discovery._apply_filters`. -/
def apply_filters (results : List DiscoveryResult) (rootPath : List Char)
    (wl bl : List (List Char)) : List DiscoveryResult :=
  let wl' := wl.map lowerStr
  let bl' := bl.map lowerStr
  results.filter fun r =>
    let rel :=
      if r.path = rootPath then ['.'] else r.path.drop (rootPath.length + 1)
    let searchText := lowerStr
      (r.name ++ ' ' :: rel ++
        (if r.sample_filename ≠ [] then ' ' :: r.sample_filename else []))
    (!(!bl'.isEmpty && bl'.any (containsSub searchText))) &&
    (!(!wl'.isEmpty && !(wl'.any (containsSub searchText))))

/-- Embeds `discovery.discover` on an existing root: walk, filter, sort by path.
The caller resolves the root path and substitutes `MEDIA_EXTENSIONS` when
no extensions are supplied. -/
def discover (rootPath : List Char) (entries : List FsEntry) (maxDepth : Nat)
    (exts wl bl : List (List Char)) : List DiscoveryResult :=
  let results := walk_for_versions 0 maxDepth exts rootPath (pathName rootPath)
    entries
  let results :=
    if wl ≠ [] ∨ bl ≠ [] then apply_filters results rootPath wl bl
    else results
  insSortBy (fun a b => lexLe a.path b.path) results

/-! ## timecode.py — SMPTE BCD decoding -/

/-- Embeds `struct.unpack("<I", data[:4])[0]`: little-endian 32-bit word from the
first four bytes. -/
def smpteWord (data : List Nat) : Nat :=
  data.getD 0 0 + 256 * data.getD 1 0 + 65536 * data.getD 2 0 +
    16777216 * data.getD 3 0

/-- Frames field of `_decode_smpte_timecode`: units nibble plus a 2-bit
tens field. -/
def smpteFrames (w : Nat) : Nat := (w &&& 0x0F) + ((w >>> 4) &&& 0x03) * 10

/-- Seconds field: units nibble plus a 3-bit tens field. -/
def smpteSeconds (w : Nat) : Nat :=
  ((w >>> 8) &&& 0x0F) + ((w >>> 12) &&& 0x07) * 10

/-- Minutes field: units nibble plus a 3-bit tens field. -/
def smpteMinutes (w : Nat) : Nat :=
  ((w >>> 16) &&& 0x0F) + ((w >>> 20) &&& 0x07) * 10

/-- Hours field: units nibble plus a 2-bit tens field. -/
def smpteHours (w : Nat) : Nat :=
  ((w >>> 24) &&& 0x0F) + ((w >>> 28) &&& 0x03) * 10

/-- The formatted string `f"{h:02d}:{m:02d}:{s:02d}:{f:02d}"`. -/
def timecodeStr (h m s f : Nat) : List Char :=
  pad2 h ++ ':' :: pad2 m ++ ':' :: pad2 s ++ ':' :: pad2 f

/-- Embeds `timecode._decode_smpte_timecode` on the 8 attribute bytes. -/
def decode_smpte_timecode (data : List Nat) : Option (List Char) :=
  if data.length < 8 then none
  else
    let w := smpteWord data
    if smpteHours w > 23 ∨ smpteMinutes w > 59 ∨ smpteSeconds w > 59 ∨
        smpteFrames w > 59 then none
    else some (timecodeStr (smpteHours w) (smpteMinutes w) (smpteSeconds w)
      (smpteFrames w))

/-! ## models.py / history.py — HistoryEntry and the history store -/

/-- Embeds `models.HistoryEntry` as the program constructs it.  The float mtimes
are carried opaquely (`Option Int`); no claim computes with them. -/
structure HistoryEntry where
  version : List Char
  source : List Char
  set_by : List Char
  set_at : List Char
  frame_range : Option (List Char) := none
  frame_count : Nat := 0
  file_count : Nat := 0
  start_timecode : Option (List Char) := none
  source_mtime : Option Int := none
  target_mtime : Option Int := none
deriving DecidableEq, Repr

/-- The JSON object written by `HistoryEntry.to_dict` and read by
`from_dict`: `version`/`source` are required keys, the rest may be absent
(`Option`); `to_dict` always writes them except the two mtimes, which are
present exactly when set. -/
structure EntryDict where
  version : List Char
  source : List Char
  set_by : Option (List Char) := none
  set_at : Option (List Char) := none
  frame_range : Option (List Char) := none
  frame_count : Option Nat := none
  file_count : Option Nat := none
  start_timecode : Option (List Char) := none
  source_mtime : Option Int := none
  target_mtime : Option Int := none
deriving DecidableEq, Repr

/-- Embeds `HistoryEntry.to_dict`. -/
def to_dict (e : HistoryEntry) : EntryDict :=
  { version := e.version, source := e.source, set_by := some e.set_by,
    set_at := some e.set_at, frame_range := e.frame_range,
    frame_count := some e.frame_count, file_count := some e.file_count,
    start_timecode := e.start_timecode, source_mtime := e.source_mtime,
    target_mtime := e.target_mtime }

/-- Embeds `HistoryEntry.from_dict` with its `.get` defaults. -/
def from_dict (d : EntryDict) : HistoryEntry :=
  { version := d.version, source := d.source,
    set_by := d.set_by.getD "unknown".toList,
    set_at := d.set_at.getD [],
    frame_range := d.frame_range,
    frame_count := d.frame_count.getD 0,
    file_count := d.file_count.getD 0,
    start_timecode := d.start_timecode,
    source_mtime := d.source_mtime, target_mtime := d.target_mtime }

/-- Embeds `HistoryEntry.from_version_info`. -/
def from_version_info (v : VersionInfo) (user now : List Char) :
    HistoryEntry :=
  { version := v.version_string, source := v.source_path, set_by := user,
    set_at := now, frame_range := v.frame_range,
    frame_count := v.frame_count, file_count := v.file_count,
    start_timecode := v.start_timecode }

/-- Parse classes of the bytes stored at the record path:
`garbage` — bytes rejected by `json.load`, or a JSON object whose field
access raises one of the caught `KeyError`/`TypeError` cases;
`nonObject` — valid JSON whose top level is not an object (so `data.get`
raises an uncaught `AttributeError`);
`record` — a well-formed record object as written by `save`. -/
inductive StoredDoc where
  | garbage
  | nonObject
  | record (current : Option EntryDict) (history : List EntryDict)
deriving DecidableEq, Repr

/-- The files a `HistoryManager` touches: the record path, its `.json.tmp`
temporary sibling and its `.json.bak` backup sibling (`none` = absent). -/
structure HFS where
  main : Option StoredDoc := none
  tmp : Option StoredDoc := none
  bak : Option StoredDoc := none
deriving DecidableEq, Repr

/-- The dict returned by `HistoryManager.load`. -/
structure HRecord where
  current : Option HistoryEntry := none
  history : List HistoryEntry := []
deriving DecidableEq, Repr

/-- Python exceptions that can escape the embedded history code. -/
inductive PyErr where
  | attributeError
deriving DecidableEq, Repr

/-- Embeds `HistoryManager.load`: absent file gives the empty record; content whose
parse raises one of the caught error types is renamed to the `.bak` sibling
and replaced by the empty record; valid JSON with a non-object top level
raises `AttributeError` (not in the caught tuple); a well-formed record
object is decoded with `from_dict` (a `current` that is JSON `null` or
absent is falsy and maps to `None`).  Returns the record and the
filesystem state after the call. -/
def load (fs : HFS) : Except PyErr (HRecord × HFS) :=
  match fs.main with
  | none => .ok ({ current := none, history := [] }, fs)
  | some .garbage =>
      .ok ({ current := none, history := [] },
        { main := none, tmp := fs.tmp, bak := some .garbage })
  | some .nonObject => .error .attributeError
  | some (.record c h) =>
      .ok ({ current := c.map from_dict, history := h.map from_dict }, fs)

/-- Embeds `history.MAX_HISTORY_ENTRIES`. -/
def MAX_HISTORY_ENTRIES : Nat := 100

/-- The record object `save` serializes: `current.to_dict()` plus the
history trimmed to `MAX_HISTORY_ENTRIES`. -/
def savedDoc (current : HistoryEntry) (history : List HistoryEntry) :
    StoredDoc :=
  .record (some (to_dict current))
    ((history.take MAX_HISTORY_ENTRIES).map to_dict)

/-- The filesystem states passed through by `HistoryManager.save`, in
order: before the temp write, mid temp write (partial bytes), after the
temp write, and after `tmp_path.replace(self.path)`.  A crash observes one
of these states; only the final one changes the record path. -/
def saveStates (current : HistoryEntry) (history : List HistoryEntry)
    (fs : HFS) : List HFS :=
  [ fs,
    { fs with tmp := some .garbage },
    { fs with tmp := some (savedDoc current history) },
    { main := some (savedDoc current history), tmp := none, bak := fs.bak } ]

/-- Embeds `HistoryManager.save`: the state after the atomic rename. -/
def save (current : HistoryEntry) (history : List HistoryEntry) (fs : HFS) :
    HFS :=
  { main := some (savedDoc current history), tmp := none, bak := fs.bak }

/-- Embeds `HistoryManager.record_promotion`: load, prepend, save (any exception
from `load` propagates). -/
def record_promotion (e : HistoryEntry) (fs : HFS) : Except PyErr HFS :=
  match load fs with
  | .error err => .error err
  | .ok (r, fs1) => .ok (save e (e :: r.history) fs1)

/-- Embeds `HistoryManager.get_current` (the filesystem effect of `load` is kept
by the store, not returned). -/
def get_current (fs : HFS) : Except PyErr (Option HistoryEntry) :=
  match load fs with
  | .error err => .error err
  | .ok (r, _) => .ok r.current

/-- The branch structure of `HistoryManager.verify_integrity` once
`get_current` has produced its value. -/
def verifyCore (current : Option HistoryEntry) (files : List (List Char)) :
    Bool × List Char :=
  match current with
  | none =>
      if files ≠ [] then
        (false, ("Files exist in latest folder but no history record found. "
          ++ "Someone may have manually placed files here.").toList)
      else (true, "No history and no files - clean state.".toList)
  | some c =>
      if files = [] then
        (false, "History says ".toList ++ c.version
          ++ " should be loaded, but no files found in latest folder.".toList)
      else if 0 < c.file_count ∧ files.length ≠ c.file_count then
        (false, "History says ".toList ++ natChars c.file_count
          ++ " files for ".toList ++ c.version ++ ", but found ".toList
          ++ natChars files.length ++ " files on disk.".toList)
      else (true, "Current: ".toList ++ c.version ++ " - files match.".toList)

/-- Embeds `HistoryManager.verify_integrity` (propagating anything `load`
raises). -/
def verify_integrity (fs : HFS) (files : List (List Char)) :
    Except PyErr (Bool × List Char) :=
  match get_current fs with
  | .error err => .error err
  | .ok cur => .ok (verifyCore cur files)

/-! ## config.py / promoter.py — PromotionEngine -/

/-- Fuel-driven worker for `groupSub`; every step consumes at least one
character, so `s.length` fuel suffices. -/
def groupSubAux : Nat → List Char → List Char
  | 0, s => s
  | _ + 1, [] => []
  | fuel + 1, c :: rest =>
      if "\x7bgroup\x7d".toList.isPrefixOf (c :: rest) then
        match rest.drop 6 with
        | d :: r2 =>
            if d = '/' || d = '\\' || d = '_' || d = '.' || d = '-' then
              groupSubAux fuel r2
            else groupSubAux fuel (d :: r2)
        | [] => []
      else c :: groupSubAux fuel rest

/-- Embeds `config._GROUP_TOKEN_RE.sub("", template)` where the regex is
`\{group\}([/\\_.\-])?`: each `{group}` occurrence is removed together with
at most one directly following divider-like character. -/
def groupSub (s : List Char) : List Char :=
  groupSubAux s.length s

/-- Embeds `config._expand_group_token`. -/
def expand_group_token (template group : List Char) : List Char :=
  if !containsSub template "\x7bgroup\x7d".toList then template
  else if group ≠ [] then
    replaceAllStr template "\x7bgroup\x7d".toList group
  else groupSub template

/-- A file in the promotion target directory.  `locked` is the outcome of
the open-for-append probe (`True` = the probe raises).  Symlinks are
modelled as non-regular entries (`is_file` false). -/
structure TFile where
  name : List Char
  isSymlink : Bool := false
  locked : Bool := false
  mtime : Int := 0
deriving DecidableEq, Repr

/-- A source media file. -/
structure SFile where
  name : List Char
  mtime : Int := 0
deriving DecidableEq, Repr

/-- The state of `version.source_path` when `promote` runs. -/
inductive PSource where
  | dir (files : List SFile)
  | single (f : SFile)
  | missing
deriving DecidableEq, Repr

/-- The `WatchedSource` fields the promoter consumes. -/
structure WatchedCfg where
  file_extensions : List (List Char)
  link_mode : List Char
  file_rename_template : List Char := []
  sample_filename : List Char := []
  name : List Char := []
  group : List Char := []
deriving DecidableEq, Repr

/-- The world a promotion acts on. -/
structure PWorld where
  source : PSource
  targetDirExists : Bool := false
  target : List TFile := []
  hist : HFS := {}
deriving DecidableEq, Repr

/-- The typed content of the `PromotionError`s (and uncaught exceptions)
`promote` can raise. -/
inductive PromotionErr where
  | sourceMissing (path : List Char)
  | lockedFiles (shown : List (List Char))
  | noMatchingFiles (dir : List Char)
  | cannotDelete (name : List Char)
  | raisedPy (e : PyErr)
deriving DecidableEq, Repr

/-- The message text of the locked-files `PromotionError`
(`"\n".join(f"  {f}" for f in locked[:10])` after the header). -/
def lockedFilesMessage (shown : List (List Char)) : List Char :=
  ("Cannot overwrite - these files appear to be locked/in use:\n").toList ++
    List.intercalate ['\n'] (shown.map fun f => ' ' :: ' ' :: f)

/-- Embeds `Promoter._target_has_media_files`: any regular entry whose
`name[rfind('.') :]` lowercased is a configured extension (extensions
lowercased). -/
def target_has_media_files (exts : List (List Char)) (target : List TFile) :
    Bool :=
  target.any fun f =>
    !f.isSymlink &&
      (match lastDotIdx f.name with
       | some i => decide (lowerStr (f.name.drop i) ∈ exts.map lowerStr)
       | none => false)

/-- Embeds `Promoter._check_locked_files`: names of the regular files with a
matching `Path.suffix` whose open-for-append probe fails. -/
def check_locked_files (exts : List (List Char)) (target : List TFile) :
    List (List Char) :=
  (target.filter fun f =>
    !f.isSymlink && decide (lowerStr (suffixOf f.name) ∈ exts.map lowerStr)
      && f.locked).map TFile.name

/-- Embeds `Promoter._clear_target`: delete regular files with a matching suffix
and all symlinks, in directory order; a locked matching file raises
(`PermissionError` → `PromotionError`) leaving it and the not yet visited
entries in place. -/
def clear_target (exts : List (List Char)) :
    List TFile → Except (PromotionErr × List TFile) (List TFile)
  | [] => .ok []
  | f :: rest =>
      if !f.isSymlink &&
          decide (lowerStr (suffixOf f.name) ∈ exts.map lowerStr) then
        if f.locked then .error (.cannotDelete f.name, f :: rest)
        else clear_target exts rest
      else if f.isSymlink then clear_target exts rest
      else
        match clear_target exts rest with
        | .error (e, t) => .error (e, f :: t)
        | .ok t => .ok (f :: t)

/-- Embeds `Promoter._remap_filename`.  With no rename template: strip the first
`_VERSION_RE` match and collapse divider runs (keeping the last divider of
each run, per the `([_.\-]){2,}` backreference).  With a template: split
off the trailing `(divider)(digits).(ext)` (else just the `Path.suffix`
without its dots), substitute the derived naming tokens and `{group}`, and
reattach the preserved tail. -/
def remap_filename (cfg : WatchedCfg) (toks : List (List Char))
    (filename : List Char) : List Char :=
  if cfg.file_rename_template = [] then
    let s1 :=
      match versionSearch filename with
      | some (i, e, _) => filename.take i ++ filename.drop e
      | none => filename
    collapseRunsLast s1
  else
    let tokens := derive_source_tokens
      (if cfg.sample_filename ≠ [] then cfg.sample_filename else cfg.name)
      toks
    let base := expand_group_token
      (replaceAllStr
        (replaceAllStr
          (replaceAllStr cfg.file_rename_template "\x7bsource_name\x7d".toList
            tokens.source_name)
          "\x7bsource_basename\x7d".toList tokens.source_basename)
        "\x7bsource_fullname\x7d".toList tokens.source_fullname)
      cfg.group
    match frameExtSearch filename with
    | some (i, ds) =>
        let sep := filename.getD i ' '
        let ext := filename.drop (i + 1 + ds.length + 1)
        base ++ sep :: ds ++ '.' :: ext
    | none =>
        base ++ '.' :: (suffixOf filename).dropWhile (· = '.')

/-- The target entry created for one transferred source file: the remapped
name; `link_mode == "symlink"` yields a symlink, copy and hardlink both
preserve the source mtime. -/
def transferredFile (cfg : WatchedCfg) (toks : List (List Char)) (f : SFile) :
    TFile :=
  { name := remap_filename cfg toks f.name,
    isSymlink := cfg.link_mode = "symlink".toList,
    locked := false, mtime := f.mtime }

/-- In `_link_or_copy`, an existing entry of the same name is unlinked
before the new one is created. -/
def addOrReplace (target : List TFile) (f : TFile) : List TFile :=
  if target.any (fun g => g.name = f.name) then
    target.map fun g => if g.name = f.name then f else g
  else target ++ [f]

/-- Embeds `Promoter._get_max_mtime` on a directory listing: running maximum
(seeded with `0.0`) over regular entries with a matching
`name[rfind('.') :]`, `None` when no entry matched. -/
def maxMtimeFold (pairs : List (Int × Bool)) : Option Int :=
  let r := pairs.foldl
    (fun acc p =>
      if p.2 then ((if p.1 > acc.1 then p.1 else acc.1), true) else acc)
    ((0 : Int), false)
  if r.2 then some r.1 else none

/-- Whether `name[rfind('.') :]` lowercased is in the lowercased extension
set (the matching rule of `_get_max_mtime` and `_target_has_media_files`). -/
def rfindSuffixMatch (exts : List (List Char)) (name : List Char) : Bool :=
  match lastDotIdx name with
  | some i => decide (lowerStr (name.drop i) ∈ exts.map lowerStr)
  | none => false

/-- Embeds `Promoter._get_max_mtime` of the source path. -/
def get_max_mtime_source (exts : List (List Char)) : PSource → Option Int
  | .dir files =>
      maxMtimeFold (files.map fun f => (f.mtime, rfindSuffixMatch exts f.name))
  | .single f => some f.mtime
  | .missing => none

/-- Embeds `Promoter._get_max_mtime` of the target directory (symlinks skipped by
`is_file(follow_symlinks=False)`). -/
def get_max_mtime_target (exts : List (List Char)) (target : List TFile) :
    Option Int :=
  maxMtimeFold (target.map fun f =>
    (f.mtime, !f.isSymlink && rfindSuffixMatch exts f.name))

/-- Embeds `Promoter.promote` with the resolved user name and clock value as
inputs.  Returns the new world and recorded entry, or the raised error
together with the world at the moment it is raised. -/
def promote (cfg : WatchedCfg) (toks : List (List Char)) (v : VersionInfo)
    (user now : List Char) (w : PWorld) :
    Except (PromotionErr × PWorld) (PWorld × HistoryEntry) :=
  let finish : PWorld → Except (PromotionErr × PWorld) (PWorld × HistoryEntry) :=
    fun w2 =>
      let entry0 := from_version_info v user now
      let entry := { entry0 with
        source_mtime := get_max_mtime_source cfg.file_extensions w.source,
        target_mtime := get_max_mtime_target cfg.file_extensions w2.target }
      match record_promotion entry w2.hist with
      | .error e => .error (.raisedPy e, w2)
      | .ok h => .ok ({ w2 with hist := h }, entry)
  if w.source = .missing then .error (.sourceMissing v.source_path, w)
  else
    let w1 := { w with targetDirExists := true }
    if target_has_media_files cfg.file_extensions w1.target &&
        !(check_locked_files cfg.file_extensions w1.target).isEmpty then
      .error
        (.lockedFiles ((check_locked_files cfg.file_extensions w1.target).take
          10), w1)
    else
      match w.source with
      | .missing => .error (.sourceMissing v.source_path, w1)
      | .dir files =>
          let source_files := insSortBy (fun a b => lexLe a.name b.name)
            (files.filter fun f =>
              lowerStr (suffixOf f.name) ∈ cfg.file_extensions.map lowerStr)
          if source_files.isEmpty then
            .error (.noMatchingFiles v.source_path, w1)
          else
            match clear_target cfg.file_extensions w1.target with
            | .error (e, t) => .error (e, { w1 with target := t })
            | .ok t =>
                finish { w1 with target :=
                  (source_files.foldl
                    (fun acc f => addOrReplace acc (transferredFile cfg toks f))
                    t) }
      | .single f =>
          finish { w1 with target :=
            (addOrReplace w1.target (transferredFile cfg toks f)) }

/-! ## Claim theorems -/

/-- C7 (counterexample): the claim asserts that a packed word BCD-encoding
frames=61 (low byte `0x61`: tens nibble 6, units nibble 1) yields no
timecode.  In the code the frame tens field is masked to 2 bits
(`(tc >> 4) & 0x03`), so the decode yields frames = 1 + 2·10 = 21 and the
decoder returns `"00:00:00:21"`, not `None`. -/
theorem c7_smpte_decode_counterexample :
    decode_smpte_timecode [0x61, 0, 0, 0, 0, 0, 0, 0] =
      some "00:00:00:21".toList ∧
    decode_smpte_timecode [0x61, 0, 0, 0, 0, 0, 0, 0] ≠ none ∧
    smpteFrames (smpteWord [0x61, 0, 0, 0, 0, 0, 0, 0]) = 21 := by
  refine ⟨by decide, by decide, by decide⟩

/-- C7 (amended): the SMPTE BCD decoder maps the packed word for
01:00:00:00 to `"01:00:00:00"`; whenever the decoded (masked) fields are
out of range it returns `None`; every returned string comes from in-range
fields; but a word BCD-encoding frames=61 is truncated by the 2-bit frame
tens mask to frames=21 and yields `"00:00:00:21"` rather than no
timecode. -/
theorem c7_smpte_decode :
    (decode_smpte_timecode [0, 0, 0, 1, 0, 0, 0, 0] =
      some "01:00:00:00".toList) ∧
    (∀ data : List Nat, 8 ≤ data.length →
      (23 < smpteHours (smpteWord data) ∨ 59 < smpteMinutes (smpteWord data) ∨
       59 < smpteSeconds (smpteWord data) ∨ 59 < smpteFrames (smpteWord data)) →
      decode_smpte_timecode data = none) ∧
    (∀ data s, decode_smpte_timecode data = some s →
      smpteHours (smpteWord data) ≤ 23 ∧ smpteMinutes (smpteWord data) ≤ 59 ∧
      smpteSeconds (smpteWord data) ≤ 59 ∧ smpteFrames (smpteWord data) ≤ 59 ∧
      s = timecodeStr (smpteHours (smpteWord data))
        (smpteMinutes (smpteWord data)) (smpteSeconds (smpteWord data))
        (smpteFrames (smpteWord data))) ∧
    (decode_smpte_timecode [0x61, 0, 0, 0, 0, 0, 0, 0] =
      some "00:00:00:21".toList) := by
  refine ⟨by decide, ?_, ?_, by decide⟩
  · intro data hlen hout
    simp only [decode_smpte_timecode]
    rw [if_neg (by omega), if_pos hout]
  · intro data s h
    simp only [decode_smpte_timecode] at h
    by_cases h8 : data.length < 8
    · rw [if_pos h8] at h
      exact absurd h (by simp)
    · rw [if_neg h8] at h
      by_cases hout : 23 < smpteHours (smpteWord data) ∨
          59 < smpteMinutes (smpteWord data) ∨
          59 < smpteSeconds (smpteWord data) ∨
          59 < smpteFrames (smpteWord data)
      · rw [if_pos hout] at h
        exact absurd h (by simp)
      · rw [if_neg hout] at h
        push_neg at hout
        obtain ⟨h1, h2, h3, h4⟩ := hout
        exact ⟨h1, h2, h3, h4, (Option.some.inj h).symm⟩

/-- C7 (witness): the hypotheses of the amended theorem are satisfiable —
a word decoding to hours 29 is rejected, and the in-range characterization
applies to the 01:00:00:00 word. -/
theorem c7_smpte_decode_witness :
    decode_smpte_timecode [0, 0, 0, 0x29, 0, 0, 0, 0] = none ∧
    smpteHours (smpteWord [0, 0, 0, 1, 0, 0, 0, 0]) ≤ 23 :=
  ⟨c7_smpte_decode.2.1 [0, 0, 0, 0x29, 0, 0, 0, 0] (by decide)
      (Or.inl (by decide)),
   (c7_smpte_decode.2.2.1 [0, 0, 0, 1, 0, 0, 0, 0] "01:00:00:00".toList
      (by decide)).1⟩

/-- The map `from_dict` inverts `to_dict`: the persisted dict of an entry decodes
back to the same entry. -/
theorem from_dict_roundtrip (e : HistoryEntry) : from_dict (to_dict e) = e :=
  rfl

/-- Mapping an entry list through `to_dict` then `from_dict` is the
identity. -/
theorem map_from_dict_to_dict (l : List HistoryEntry) :
    (l.map to_dict).map from_dict = l := by
  induction l with
  | nil => rfl
  | cons a as ih =>
      simp only [List.map_cons, ih]
      rfl

/-- A concrete history entry (note `file_count = 0`, as recorded for an
empty promotion). -/
def sampleEntry : HistoryEntry :=
  { version := "v001".toList, source := "/src/shot_v001".toList,
    set_by := "alice".toList, set_at := "2026-01-01T00:00:00".toList }

/-- A second concrete history entry. -/
def sampleEntry2 : HistoryEntry :=
  { version := "v002".toList, source := "/src/shot_v002".toList,
    set_by := "bob".toList, set_at := "2026-01-02T00:00:00".toList,
    file_count := 5, frame_count := 5 }

/-- C1: `save(current, history)` truncates the history to at most 100
entries; the record path holds either the previous bytes or the complete
new record in every state the write sequence passes through; only the
final rename changes the record path, and after it the record path parses
to exactly the saved current entry and the truncated history. -/
theorem c1_save_crash_consistency (cur : HistoryEntry)
    (hist : List HistoryEntry) (fs : HFS) :
    (∀ s ∈ saveStates cur hist fs,
      s.main = fs.main ∨ s.main = some (savedDoc cur hist)) ∧
    (∀ s ∈ (saveStates cur hist fs).dropLast, s.main = fs.main) ∧
    (saveStates cur hist fs).getLast? = some (save cur hist fs) ∧
    (save cur hist fs).main = some (savedDoc cur hist) ∧
    load (save cur hist fs) =
      .ok ({ current := some cur, history := hist.take MAX_HISTORY_ENTRIES },
        save cur hist fs) ∧
    (hist.take MAX_HISTORY_ENTRIES).length ≤ 100 := by
  refine ⟨?_, ?_, rfl, rfl, ?_, ?_⟩
  · intro s hs
    simp only [saveStates, List.mem_cons, List.mem_singleton,
      List.not_mem_nil, or_false] at hs
    rcases hs with h | h | h | h <;> subst h <;> simp [save, savedDoc]
  · intro s hs
    simp only [saveStates, List.dropLast, List.mem_cons,
      List.not_mem_nil, or_false] at hs
    rcases hs with h | h | h <;> subst h <;> simp
  · simp only [load, save, savedDoc]
    rw [map_from_dict_to_dict]
    rfl
  · exact le_trans (List.length_take_le _ _) (by simp [MAX_HISTORY_ENTRIES])

/-- C1 (witness): the crash-state quantifiers of the theorem are
inhabited at a concrete save over the empty store. -/
theorem c1_save_crash_consistency_witness :
    (({} : HFS).main = ({} : HFS).main ∨
      ({} : HFS).main = some (savedDoc sampleEntry [])) ∧
    ({ main := some (savedDoc sampleEntry []), tmp := none,
       bak := none } : HFS).main = some (savedDoc sampleEntry []) := by
  refine ⟨(c1_save_crash_consistency sampleEntry [] {}).1 {} (by simp [saveStates]), ?_⟩
  have h := (c1_save_crash_consistency sampleEntry [] {}).2.2.2.1
  simpa [save] using h

/-- C2 (amended): from any prior store state on which `load` succeeds,
`record_promotion e` then `load` returns `current = e` and a history whose
first element is `e`, followed by the previously stored entries truncated
to the first 99 (the 100-entry cap drops the oldest entry when the prior
history is already full). -/
theorem c2_record_promotion_roundtrip (fs : HFS) (e : HistoryEntry)
    (r : HRecord) (fs1 : HFS) (h : load fs = .ok (r, fs1)) :
    ∃ fs2, record_promotion e fs = .ok fs2 ∧
      load fs2 =
        .ok ({ current := some e, history := e :: r.history.take 99 }, fs2) := by
  refine ⟨save e (e :: r.history) fs1, ?_, ?_⟩
  · simp [record_promotion, h]
  · simp only [load, save, savedDoc, MAX_HISTORY_ENTRIES]
    rw [show (100 : Nat) = 99 + 1 from rfl, List.take_succ_cons,
      map_from_dict_to_dict]
    rfl

/-- C2 (witness): promoting onto the empty store round-trips. -/
theorem c2_record_promotion_roundtrip_witness :
    ∃ fs2, record_promotion sampleEntry {} = .ok fs2 ∧
      load fs2 =
        .ok ({ current := some sampleEntry, history := [sampleEntry] }, fs2) := by
  have h := c2_record_promotion_roundtrip {} sampleEntry
    { current := none, history := [] } {} rfl
  simpa using h

/-- A store whose persisted history already holds 100 entries. -/
def fsFull : HFS :=
  { main := some (.record none (List.replicate 100 (to_dict sampleEntry))) }

/-- The store state after promoting `sampleEntry2` onto `fsFull`. -/
def fsAfterPromo : HFS :=
  save sampleEntry2 (sampleEntry2 :: List.replicate 100 sampleEntry) fsFull

/-- C2 (counterexample): with 100 previously stored entries, the claim's
"previously stored history entries following it" fails — after
`record_promotion` the loaded history is the new entry followed by only the
first 99 prior entries, which differs from the new entry followed by all
100. -/
theorem c2_record_promotion_counterexample :
    load fsFull =
      .ok ({ current := none, history := List.replicate 100 sampleEntry },
        fsFull) ∧
    record_promotion sampleEntry2 fsFull = .ok fsAfterPromo ∧
    load fsAfterPromo =
      .ok ({ current := some sampleEntry2,
             history := sampleEntry2 :: List.replicate 99 sampleEntry },
        fsAfterPromo) ∧
    sampleEntry2 :: List.replicate 99 sampleEntry ≠
      sampleEntry2 :: List.replicate 100 sampleEntry := by
  refine ⟨?_, ?_, ?_, ?_⟩
  · simp only [fsFull, load, List.map_replicate]
    rfl
  · simp only [record_promotion, fsFull, fsAfterPromo, load,
      List.map_replicate]
    rfl
  · simp only [fsAfterPromo, fsFull, load, save, savedDoc,
      MAX_HISTORY_ENTRIES]
    rw [show (100 : Nat) = 99 + 1 from rfl, List.take_succ_cons,
      List.take_replicate]
    simp only [List.map_cons, List.map_replicate]
    rfl
  · intro hcontra
    have := congrArg List.length hcontra
    simp at this

/-- C6: `load()` returns the empty record when the file is absent; content
failing to parse under the caught error classes is renamed to the `.bak`
sibling and replaced by the empty record; but content that is valid JSON
with a non-object top level (e.g. the file holding `[]`) raises an uncaught
`AttributeError` from `data.get`, contradicting "never raises". -/
theorem c6_load_behavior :
    (load {} = .ok ({ current := none, history := [] }, ({} : HFS))) ∧
    (∀ fs : HFS, fs.main = some .garbage →
      load fs = .ok ({ current := none, history := [] },
        { main := none, tmp := fs.tmp, bak := some .garbage })) ∧
    (load { main := some .nonObject } = .error .attributeError) := by
  refine ⟨rfl, ?_, rfl⟩
  intro fs h
  simp [load, h]

/-- C6 (witness): the garbage-recovery branch is exercised at a concrete
corrupt store. -/
theorem c6_load_behavior_witness :
    load { main := some .garbage } =
      .ok ({ current := none, history := [] },
        { main := none, tmp := none, bak := some .garbage }) :=
  c6_load_behavior.2.1 { main := some .garbage } rfl

/-- C9 (amended): `verify_integrity` flags inconsistency exactly when
(no record and files present), (record and no files), or (record, files,
a *positive* recorded `file_count`, and a differing on-disk count); a
record whose `file_count` is 0 is reported valid whatever the on-disk
count.  The wrapper feeds the loaded `current` into this decision. -/
theorem c9_verify_integrity (current : Option HistoryEntry)
    (files : List (List Char)) :
    ((verifyCore current files).1 = false ↔
      (current = none ∧ files ≠ []) ∨
      (∃ c, current = some c ∧ files = []) ∨
      (∃ c, current = some c ∧ files ≠ [] ∧ 0 < c.file_count ∧
        files.length ≠ c.file_count)) ∧
    (∀ fs r fs1, load fs = .ok (r, fs1) →
      verify_integrity fs files = .ok (verifyCore r.current files)) := by
  constructor
  · cases current with
    | none =>
        by_cases hf : files = [] <;> simp [verifyCore, hf]
    | some c =>
        by_cases hf : files = []
        · simp [verifyCore, hf]
        · by_cases hc : 0 < c.file_count ∧ files.length ≠ c.file_count
          · simp [verifyCore, hf, hc]
          · simp only [verifyCore, hf, if_false, if_neg hc]
            simp [hf]
            tauto
  · intro fs r fs1 h
    simp [verify_integrity, get_current, h]

/-- C9 (witness): the wrapper conjunct applied on the empty store. -/
theorem c9_verify_integrity_witness :
    verify_integrity {} ["x.exr".toList] =
      .ok (verifyCore none ["x.exr".toList]) :=
  (c9_verify_integrity none ["x.exr".toList]).2 {}
    { current := none, history := [] } {} rfl

/-- C9 (counterexample): a persisted current record with `file_count = 0`
and one file on disk — the counts differ, the claim says this is flagged
inconsistent, but `verify_integrity` reports valid. -/
theorem c9_verify_integrity_counterexample :
    get_current { main := some (.record (some (to_dict sampleEntry)) []) } =
      .ok (some sampleEntry) ∧
    sampleEntry.file_count = 0 ∧
    (["manual.exr".toList] : List (List Char)).length ≠ sampleEntry.file_count ∧
    (verifyCore (some sampleEntry) ["manual.exr".toList]).1 = true ∧
    verify_integrity { main := some (.record (some (to_dict sampleEntry)) []) }
      ["manual.exr".toList] = .ok (true, "Current: ".toList ++
        sampleEntry.version ++ " - files match.".toList) := by
  refine ⟨rfl, rfl, by decide, by decide, rfl⟩

/-- C8 (amended): token derivation is idempotent on its own output when no
stage finds anything further to strip: if `b` is its own path name and is
fixed by `strip_frame_and_ext`, `strip_version` and `strip_task_tokens`
under the given task tokens, then re-deriving from `b` yields
`source_basename = b`.  Without those conditions idempotence fails (see
the counterexample). -/
theorem c8_derive_idempotent (b : List Char) (toks : List (List Char))
    (h0 : pathName b = b) (h1 : strip_frame_and_ext b = b)
    (h2 : strip_version b = b) (h3 : strip_task_tokens b toks = b) :
    (derive_source_tokens b toks).source_basename = b := by
  simp only [derive_source_tokens, h0, h1, h2, h3, ite_self]

/-- C8 (witness): the idempotence hypotheses hold at `"hero"` with task
tokens `["comp"]`. -/
theorem c8_derive_idempotent_witness :
    (derive_source_tokens "hero".toList ["comp".toList]).source_basename =
      "hero".toList :=
  c8_derive_idempotent "hero".toList ["comp".toList] (by decide) (by decide)
    (by decide) (by decide)

/-- C8 (counterexample): deriving from `hero.grade.mov` with no task
tokens yields `source_basename = "hero.grade"`; re-running the full
derivation on that output strips `.grade` as an extension (the
`Path.stem` fallback of `strip_frame_and_ext`), yielding `"hero"` — the
derivation strips further characters from its own output. -/
theorem c8_derive_counterexample :
    (derive_source_tokens "hero.grade.mov".toList []).source_basename =
      "hero.grade".toList ∧
    (derive_source_tokens
        ((derive_source_tokens "hero.grade.mov".toList []).source_basename)
        []).source_basename = "hero".toList ∧
    (derive_source_tokens
        ((derive_source_tokens "hero.grade.mov".toList []).source_basename)
        []).source_basename ≠
      (derive_source_tokens "hero.grade.mov".toList []).source_basename := by
  refine ⟨by decide, by decide, by decide⟩

/-- The frame-range string as the claim words it: `"{first}-{last}"`, with
`" ({actual}/{expected} frames, gaps detected)"` appended exactly when
`actual` differs from `expected = last - first + 1`. -/
def specFrameRangeStr (first last actual : Nat) : List Char :=
  natChars first ++ '-' :: natChars last ++
    (if actual ≠ last - first + 1 then
      " (".toList ++ natChars actual ++ '/' :: natChars (last - first + 1)
        ++ " frames, gaps detected)".toList
    else [])

/-- C4 (amended): frame numbers are collected from the trailing
divider+digits+dot+extension suffix of each filename; the reported range is
`None` iff there are fewer than two files or **no** file carries a frame
number (a single framed file among two or more files already yields a
degenerate range); otherwise the range is `"{first}-{last}"` over the
minimum and maximum collected frames with the gap annotation exactly when
the framed-file count differs from `last-first+1`; the discovery copy of
the routine behaves identically; and the `{1001, 1002, 1004}` example
reports `"1001-1004 (3/4 frames, gaps detected)"`. -/
theorem c4_frame_range :
    (∀ files, (detect_frame_range files).1 = none ↔
      files.length ≤ 1 ∨ framesOf files = []) ∧
    (∀ files, 2 ≤ files.length → framesOf files ≠ [] →
      ∃ first last,
        first ∈ framesOf files ∧ last ∈ framesOf files ∧
        (∀ x ∈ framesOf files, first ≤ x ∧ x ≤ last) ∧
        detect_frame_range files =
          (some (specFrameRangeStr first last (framesOf files).length),
            (framesOf files).length)) ∧
    (∀ files, discovery_detect_frame_range files = detect_frame_range files) ∧
    detect_frame_range
        ["a.1001.exr".toList, "a.1002.exr".toList, "a.1004.exr".toList] =
      (some "1001-1004 (3/4 frames, gaps detected)".toList, 3) := by
  refine ⟨?_, ?_, fun _ => rfl, by decide⟩
  · intro files
    match files with
    | [] => simp [detect_frame_range]
    | [f] => simp [detect_frame_range]
    | a :: b :: rest =>
        by_cases hf : framesOf (a :: b :: rest) = [] <;>
          simp [detect_frame_range, hf]
  · intro files h2 hne
    match files, h2 with
    | a :: b :: rest, _ =>
      have hperm := perm_insSortBy (fun a b => decide (a ≤ b))
        (framesOf (a :: b :: rest))
      have hsort := sorted_insSortBy (framesOf (a :: b :: rest))
      have hs_ne : insSortBy (fun a b => decide (a ≤ b))
          (framesOf (a :: b :: rest)) ≠ [] := by
        intro hnil
        rw [hnil] at hperm
        exact hne (hperm.symm.eq_nil)
      refine ⟨(insSortBy (fun a b => decide (a ≤ b))
          (framesOf (a :: b :: rest))).headD 0,
        (insSortBy (fun a b => decide (a ≤ b))
          (framesOf (a :: b :: rest))).getLastD 0, ?_, ?_, ?_, ?_⟩
      · exact hperm.mem_iff.mp (headD_mem _ hs_ne)
      · exact hperm.mem_iff.mp (getLastD_mem _ hs_ne)
      · intro x hx
        have hxs := hperm.mem_iff.mpr hx
        exact ⟨sorted_headD_le _ hsort x hxs, sorted_le_getLastD _ hsort x hxs⟩
      · simp only [detect_frame_range, if_neg hne, specFrameRangeStr]
        split_ifs <;> simp_all [List.append_assoc]

/-- C4 (witness): the range characterization instantiated on the gap
example. -/
theorem c4_frame_range_witness :
    ∃ first last,
      first ∈ framesOf
        ["a.1001.exr".toList, "a.1002.exr".toList, "a.1004.exr".toList] ∧
      last ∈ framesOf
        ["a.1001.exr".toList, "a.1002.exr".toList, "a.1004.exr".toList] ∧
      (∀ x ∈ framesOf
        ["a.1001.exr".toList, "a.1002.exr".toList, "a.1004.exr".toList],
        first ≤ x ∧ x ≤ last) ∧
      detect_frame_range
          ["a.1001.exr".toList, "a.1002.exr".toList, "a.1004.exr".toList] =
        (some (specFrameRangeStr first last 3), 3) :=
  c4_frame_range.2.1
    ["a.1001.exr".toList, "a.1002.exr".toList, "a.1004.exr".toList]
    (by decide) (by decide)

/-- C4 (counterexample): with two files of which exactly one carries a
frame number, the claim says the frame range is `None`; the code reports
the degenerate range `"1001-1001"`. -/
theorem c4_frame_range_counterexample :
    framesOf ["a.1001.exr".toList, "b.mov".toList] = [1001] ∧
    detect_frame_range ["a.1001.exr".toList, "b.mov".toList] =
      (some "1001-1001".toList, 1) ∧
    (detect_frame_range ["a.1001.exr".toList, "b.mov".toList]).1 ≠ none := by
  refine ⟨by decide, by decide, by decide⟩

/-- The function `_scan_version_folder` yields a `VersionInfo` only when the folder holds
at least one file matching the configured extensions, and records that
file count. -/
theorem scan_version_folder_files_nonempty
    (search : List Char → Option (List Char)) (exts : List (List Char))
    (path name : List Char) (entries : List FsEntry) (vi : VersionInfo)
    (h : scan_version_folder search exts path name entries = some vi) :
    collect_files exts entries ≠ [] ∧
      vi.file_count = (collect_files exts entries).length ∧
      0 < vi.file_count := by
  simp only [scan_version_folder] at h
  split at h
  · exact absurd h (by simp)
  · split at h
    · exact absurd h (by simp)
    · rename_i hf
      have hvi := Option.some.inj h
      refine ⟨hf, ?_, ?_⟩
      · rw [← hvi]
      · rw [← hvi]
        simpa [List.length_pos] using hf

/-- The function `_scan_version_file` yields a `VersionInfo` only when the file's own
suffix matches the configured extensions, with `file_count = 1`. -/
theorem scan_version_file_matches
    (search : List Char → Option (List Char)) (exts : List (List Char))
    (path name : List Char) (size : Nat) (vi : VersionInfo)
    (h : scan_version_file search exts path name size = some vi) :
    lowerStr (suffixOf name) ∈ exts ∧ vi.file_count = 1 := by
  simp only [scan_version_file] at h
  split at h
  · rename_i hm
    refine ⟨hm, ?_⟩
    split at h
    · exact absurd h (by simp)
    · have hvi := Option.some.inj h
      rw [← hvi]
  · exact absurd h (by simp)

/-- C3 (amended): every `VersionInfo` produced by `VersionScanner` comes
from a location with at least one file matching the configured extensions
— a version folder must contain a matching file (and its `file_count`
records how many), a bare version file must itself match, and every scan
result has a positive `file_count`.  (`DiscoveryEngine` does **not** share
this invariant: its `_scan_version_dir` builds a `VersionInfo` with
`file_count = 0` for a version-named directory holding no matching media
files; see the counterexample.) -/
theorem c3_scanner_nonempty_invariant :
    (∀ (search : List Char → Option (List Char)) (exts : List (List Char))
      (path name : List Char) (entries : List FsEntry) (vi : VersionInfo),
      scan_version_folder search exts path name entries = some vi →
      collect_files exts entries ≠ [] ∧ 0 < vi.file_count) ∧
    (∀ (search : List Char → Option (List Char)) (exts : List (List Char))
      (path name : List Char) (size : Nat) (vi : VersionInfo),
      scan_version_file search exts path name size = some vi →
      lowerStr (suffixOf name) ∈ exts ∧ vi.file_count = 1) ∧
    (∀ (search : List Char → Option (List Char)) (exts : List (List Char))
      (dir : List Char) (entries : List FsEntry),
      ∀ vi ∈ scan search exts dir entries, 0 < vi.file_count) := by
  refine ⟨?_, ?_, ?_⟩
  · intro search exts path name entries vi h
    have := scan_version_folder_files_nonempty search exts path name entries
      vi h
    exact ⟨this.1, this.2.2⟩
  · intro search exts path name size vi h
    exact scan_version_file_matches search exts path name size vi h
  · intro search exts dir entries vi hvi
    simp only [scan] at hvi
    rw [mem_insSortBy] at hvi
    rw [List.mem_filterMap] at hvi
    obtain ⟨e, _, hfe⟩ := hvi
    cases e with
    | dir n es =>
        exact (scan_version_folder_files_nonempty search exts _ n es vi
          hfe).2.2
    | file n sz =>
        have := (scan_version_file_matches search exts _ n sz vi hfe).2
        omega

/-- C3 (witness): the scanner invariant applied to a concrete scan of one
version folder holding one matching file. -/
theorem c3_scanner_nonempty_invariant_witness :
    0 < (VersionInfo.file_count
      { version_string := "v001".toList, version_number := 1,
        source_path := "src/shot_v001".toList, frame_range := none,
        frame_count := 1, file_count := 1, total_size_bytes := 7,
        start_timecode := none }) :=
  c3_scanner_nonempty_invariant.2.2
    (fun s => (versionSearch s).map (·.2.2)) [".exr".toList] "src".toList
    [.dir "shot_v001".toList [.file "shot_v001.exr".toList 7]]
    _ (by decide)

/-- C3 (counterexample): discovery of a tree whose only version-named
directory holds no matching media files still reports a `VersionInfo`
(version 1, `file_count = 0`) for it, contradicting "a location with zero
matching media files never yields a VersionInfo". -/
theorem c3_discovery_counterexample :
    (discover "root/renders".toList [.dir "shot_v001".toList []] 4
        [".exr".toList] [] []).map
      (fun r => r.versions_found.map fun v => (v.version_number, v.file_count))
      = [[(1, 0)]] ∧
    collect_media_files [".exr".toList] [] = [] := by
  refine ⟨by decide, by decide⟩

theorem toDigitsCore_len_le (f m : Nat) (ds : List Char) :
    ds.length ≤ (Nat.toDigitsCore 10 f m ds).length := by
  induction f generalizing m ds with
  | zero => simp [Nat.toDigitsCore]
  | succ f ih =>
      simp only [Nat.toDigitsCore]
      split
      · simp
      · exact le_trans (by simp) (ih (m / 10) _)

theorem toDigitsCore_len_le1 (f m : Nat) (ds : List Char) (hf : 1 ≤ f) :
    ds.length + 1 ≤ (Nat.toDigitsCore 10 f m ds).length := by
  cases f with
  | zero => omega
  | succ f =>
      simp only [Nat.toDigitsCore]
      split
      · simp
      · exact le_trans (by simp) (toDigitsCore_len_le f (m / 10) _)

theorem toDigitsCore_len_le2 (f m : Nat) (ds : List Char) (hf : 2 ≤ f)
    (hm : 10 ≤ m) : ds.length + 2 ≤ (Nat.toDigitsCore 10 f m ds).length := by
  cases f with
  | zero => omega
  | succ f =>
      simp only [Nat.toDigitsCore]
      have hnz : ¬ m / 10 = 0 := by omega
      rw [if_neg hnz]
      have := toDigitsCore_len_le1 f (m / 10)
        (Nat.digitChar (m % 10) :: ds) (by omega)
      simpa using this

/-- The format `f"v{n:03d}"` pads to at least three digits. -/
theorem pad3_length_ge (n : Nat) : 3 ≤ (pad3 n).length := by
  by_cases h1 : n < 10
  · have := toDigitsCore_len_le1 (n + 1) n [] (by omega)
    simp only [pad3, natChars, Nat.toDigits, if_pos h1]
    simp at this ⊢
    omega
  · by_cases h2 : n < 100
    · have h3 : (natChars n).length ≥ 2 := by
        simp only [natChars, Nat.toDigits, Nat.toDigitsCore]
        have hnz : ¬ n / 10 = 0 := by omega
        rw [if_neg hnz]
        have := toDigitsCore_len_le1 n (n / 10)
          [Nat.digitChar (n % 10)] (by omega)
        simpa using this
      simp only [pad3, if_neg h1, if_pos h2]
      simp at h3 ⊢
      omega
    · have h3 : (natChars n).length ≥ 3 := by
        simp only [natChars, Nat.toDigits, Nat.toDigitsCore]
        have hnz : ¬ n / 10 = 0 := by omega
        rw [if_neg hnz]
        have := toDigitsCore_len_le2 n (n / 10)
          [Nat.digitChar (n % 10)] (by omega) (by omega)
        simpa using this
      simp only [pad3, if_neg h1, if_neg h2]
      simpa using h3

/-- The normalized-format invariant a `VersionInfo` must satisfy. -/
def vstringFormat (vi : VersionInfo) : Prop :=
  vi.version_string = 'v' :: pad3 vi.version_number

theorem extract_version_format (search : List Char → Option (List Char))
    (name : List Char) (vs : List Char) (vn : Nat)
    (h : extract_version search name = some (vs, vn)) :
    vs = 'v' :: pad3 vn := by
  simp only [extract_version, Option.map_eq_some'] at h
  obtain ⟨g, _, hfg⟩ := h
  have h1 := congrArg Prod.fst hfg
  have h2 := congrArg Prod.snd hfg
  simp at h1 h2
  rw [← h1, ← h2]

theorem scan_version_folder_format (search : List Char → Option (List Char))
    (exts : List (List Char)) (path name : List Char)
    (entries : List FsEntry) (vi : VersionInfo)
    (h : scan_version_folder search exts path name entries = some vi) :
    vstringFormat vi := by
  simp only [scan_version_folder] at h
  split at h
  · exact absurd h (by simp)
  · rename_i vs vn hE
    split at h
    · exact absurd h (by simp)
    · have hvi := Option.some.inj h
      have hfmt := extract_version_format search name vs vn hE
      rw [vstringFormat, ← hvi]
      simpa using hfmt

theorem scan_version_file_format (search : List Char → Option (List Char))
    (exts : List (List Char)) (path name : List Char) (size : Nat)
    (vi : VersionInfo)
    (h : scan_version_file search exts path name size = some vi) :
    vstringFormat vi := by
  simp only [scan_version_file] at h
  split at h
  · split at h
    · exact absurd h (by simp)
    · rename_i vs vn hE
      have hvi := Option.some.inj h
      have hfmt := extract_version_format search name vs vn hE
      rw [vstringFormat, ← hvi]
      simpa using hfmt
  · exact absurd h (by simp)

theorem foldVersionFiles_format (path : List Char)
    (l : List (List Char × Nat × Nat)) :
    ∀ acc, (∀ vi ∈ acc, vstringFormat vi) →
      ∀ vi ∈ foldVersionFiles path l acc, vstringFormat vi := by
  induction l with
  | nil => intro acc hacc vi hvi; exact hacc vi hvi
  | cons v rest ih =>
      intro acc hacc vi hvi
      obtain ⟨n, sz, vn⟩ := v
      simp only [foldVersionFiles] at hvi
      split at hvi
      · refine ih _ ?_ vi hvi
        intro w hw
        rw [List.mem_map] at hw
        obtain ⟨w0, hw0, hww⟩ := hw
        have := hacc w0 hw0
        rw [vstringFormat] at this ⊢
        rw [← hww]
        split <;> simpa using this
      · refine ih _ ?_ vi hvi
        intro w hw
        rcases List.mem_append.mp hw with hw | hw
        · exact hacc w hw
        · simp only [List.mem_singleton] at hw
          rw [vstringFormat, hw]

theorem walkDirResult_format (exts : List (List Char)) (path name : List Char)
    (vds : List (List Char × List FsEntry × (Nat × Nat × List Char))) :
    ∀ r ∈ walkDirResult exts path name vds, ∀ vi ∈ r.versions_found,
      vstringFormat vi := by
  intro r hr vi hvi
  simp only [walkDirResult] at hr
  split at hr
  · simp only [List.mem_singleton] at hr
    subst hr
    simp only at hvi
    rw [mem_insSortBy, List.mem_map] at hvi
    obtain ⟨v, _, hv⟩ := hvi
    rw [vstringFormat, ← hv]
    rfl
  · exact absurd hr (by simp)

theorem walkFileResult_format (exts : List (List Char)) (path name : List Char)
    (vfs : List (List Char × Nat × Nat)) (dirsEmpty : Bool) :
    ∀ r ∈ walkFileResult exts path name vfs dirsEmpty,
      ∀ vi ∈ r.versions_found, vstringFormat vi := by
  intro r hr vi hvi
  simp only [walkFileResult] at hr
  split at hr
  · simp only [List.mem_singleton] at hr
    subst hr
    simp only at hvi
    rw [mem_insSortBy] at hvi
    exact foldVersionFiles_format path vfs [] (by simp) vi hvi
  · exact absurd hr (by simp)

theorem walkAux_format (exts : List (List Char)) :
    ∀ fuel depth maxDepth path name entries,
      ∀ r ∈ walkAux exts fuel depth maxDepth path name entries,
      ∀ vi ∈ r.versions_found, vstringFormat vi := by
  intro fuel
  induction fuel with
  | zero => intro depth maxDepth path name entries r hr; simp [walkAux] at hr
  | succ fuel ih =>
      intro depth maxDepth path name entries r hr vi hvi
      simp only [walkAux] at hr
      split at hr
      · simp at hr
      · rcases List.mem_append.mp hr with hr | hr
        · rcases List.mem_append.mp hr with hr | hr
          · exact walkDirResult_format exts path name _ r hr vi hvi
          · exact walkFileResult_format exts path name _ _ r hr vi hvi
        · rw [List.mem_flatten] at hr
          obtain ⟨l, hl, hrl⟩ := hr
          rw [List.mem_map] at hl
          obtain ⟨sd, _, hsd⟩ := hl
          rw [← hsd] at hrl
          exact ih (depth + 1) maxDepth (childPath path sd.1) sd.1 sd.2 r hrl
            vi hvi

/-- C10: every `VersionInfo` produced by `VersionScanner.scan` or by
`discover` carries the normalized label `f"v{version_number:03d}"` — the
string `v` followed by the version number zero-padded to at least three
digits, whatever the padding or case of the matched name; e.g. a folder
named `shot_V0051` yields `version_string = "v051"` with
`version_number = 51`. -/
theorem c10_version_string_format :
    (∀ (search : List Char → Option (List Char)) (exts : List (List Char))
      (dir : List Char) (entries : List FsEntry),
      ∀ vi ∈ scan search exts dir entries, vstringFormat vi) ∧
    (∀ (rootPath : List Char) (entries : List FsEntry) (maxDepth : Nat)
      (exts wl bl : List (List Char)),
      ∀ r ∈ discover rootPath entries maxDepth exts wl bl,
      ∀ vi ∈ r.versions_found, vstringFormat vi) ∧
    (∀ n, 3 ≤ (pad3 n).length) ∧
    ((discover "root".toList [.dir "shot_V0051".toList []] 4 [".exr".toList]
        [] []).map
      (fun r => r.versions_found.map fun v =>
        (v.version_string, v.version_number)) =
      [[("v051".toList, 51)]]) := by
  refine ⟨?_, ?_, pad3_length_ge, by decide⟩
  · intro search exts dir entries vi hvi
    simp only [scan] at hvi
    rw [mem_insSortBy, List.mem_filterMap] at hvi
    obtain ⟨e, _, hfe⟩ := hvi
    cases e with
    | dir n es => exact scan_version_folder_format search exts _ n es vi hfe
    | file n sz => exact scan_version_file_format search exts _ n sz vi hfe
  · intro rootPath entries maxDepth exts wl bl r hr vi hvi
    simp only [discover] at hr
    rw [mem_insSortBy] at hr
    split at hr
    · simp only [apply_filters] at hr
      rw [List.mem_filter] at hr
      exact walkAux_format exts _ _ _ _ _ _ r
        (by simpa [walk_for_versions] using hr.1) vi hvi
    · exact walkAux_format exts _ _ _ _ _ _ r
        (by simpa [walk_for_versions] using hr) vi hvi

/-- C10 (witness): the scan-level format invariant applied to a concrete
scan of `shot_V0051` content under the discovery version regex. -/
theorem c10_version_string_format_witness :
    vstringFormat
      { version_string := "v051".toList, version_number := 51,
        source_path := "src/shot_v051.exr".toList, frame_range := none,
        frame_count := 1, file_count := 1, total_size_bytes := 9,
        start_timecode := none } :=
  c10_version_string_format.1 (fun s => (versionSearch s).map (·.2.2))
    [".exr".toList] "src".toList [.file "shot_v051.exr".toList 9] _
    (by decide)

/-- C5 (amended): when the source still exists, the target directory holds
at least one file matching the configured extensions, and at least one
probed file is locked, `promote` raises a `PromotionError` carrying the
locked filenames (truncated to the first 10 when more are locked), and the
world at the moment it is raised differs from the initial one only by
target-directory creation: no target file has been deleted or written,
nothing has been transferred, and no history entry has been recorded. -/
theorem c5_promote_locked_abort (cfg : WatchedCfg) (toks : List (List Char))
    (v : VersionInfo) (user now : List Char) (w : PWorld)
    (hsrc : w.source ≠ .missing)
    (hmedia : target_has_media_files cfg.file_extensions w.target = true)
    (hlocked : check_locked_files cfg.file_extensions w.target ≠ []) :
    promote cfg toks v user now w =
      .error (.lockedFiles
        ((check_locked_files cfg.file_extensions w.target).take 10),
        { w with targetDirExists := true }) ∧
    ({ w with targetDirExists := true } : PWorld).target = w.target ∧
    ({ w with targetDirExists := true } : PWorld).hist = w.hist ∧
    ({ w with targetDirExists := true } : PWorld).source = w.source := by
  refine ⟨?_, rfl, rfl, rfl⟩
  have hne : (check_locked_files cfg.file_extensions w.target).isEmpty =
      false := by
    cases hc : check_locked_files cfg.file_extensions w.target with
    | nil => exact absurd hc hlocked
    | cons a l => rfl
  simp only [promote, if_neg hsrc, hmedia, hne]
  rfl

/-- A watched-source configuration used by the concrete promotions. -/
def cfg0 : WatchedCfg :=
  { file_extensions := [".exr".toList], link_mode := "copy".toList }

/-- A concrete version to promote. -/
def v0 : VersionInfo :=
  { version_string := "v001".toList, version_number := 1,
    source_path := "/src/shot_v001".toList, file_count := 1 }

/-- C5 (witness): the abort theorem applied to a world with one locked
matching target file. -/
theorem c5_promote_locked_abort_witness :
    promote cfg0 [] v0 "alice".toList "2026-01-01T00:00:00".toList
      { source := .dir [{ name := "a_v001.exr".toList }],
        target := [{ name := "b.exr".toList, locked := true }], hist := {} } =
      .error (.lockedFiles [ "b.exr".toList ],
        { source := .dir [{ name := "a_v001.exr".toList }],
          targetDirExists := true,
          target := [{ name := "b.exr".toList, locked := true }],
          hist := {} }) :=
  (c5_promote_locked_abort cfg0 [] v0 "alice".toList
    "2026-01-01T00:00:00".toList
    { source := .dir [{ name := "a_v001.exr".toList }],
      target := [{ name := "b.exr".toList, locked := true }], hist := {} }
    (by decide) (by decide) (by decide)).1

/-- Eleven locked matching files in the promotion target. -/
def target11 : List TFile :=
  (List.range 11).map fun i =>
    { name := 'f' :: natChars i ++ ".exr".toList, locked := true }

/-- The world with eleven locked target files. -/
def w11 : PWorld :=
  { source := .dir [{ name := "a_v001.exr".toList }], target := target11,
    hist := {} }

/-- C5 (counterexample): with eleven locked files the raised error lists
only the first ten (`locked[:10]`), so its message does not list all the
locked files as the claim states. -/
theorem c5_promote_locked_counterexample :
    (check_locked_files cfg0.file_extensions w11.target).length = 11 ∧
    promote cfg0 [] v0 "u".toList "t".toList w11 =
      .error (.lockedFiles
        ((check_locked_files cfg0.file_extensions w11.target).take 10),
        { w11 with targetDirExists := true }) ∧
    (check_locked_files cfg0.file_extensions w11.target).take 10 ≠
      check_locked_files cfg0.file_extensions w11.target := by
  refine ⟨by decide, by rfl, by decide⟩

end LVM
